import Mathlib

/-!
Shallow embedding of the setpci register-manipulation tool (pciutils).

The embedding models the core of `setpci.c`:
* the batch execution engine (`exec_op`, `execute`) over an abstract device
  (capability locator and width-indexed read primitives are external
  collaborators, modelled as oracle functions; reads and writes are recorded
  as events, and a `die` call is modelled as an error value that truncates
  the rest of the run);
* the register-spec parser (`parse_x32`, `parse_register`, `parse_reg_name`,
  `parse_op`) at the level of character lists, with `strtoul(_, _, 16)`
  modelled for an LP64 platform (`unsigned long` = 64 bits,
  `unsigned int` = 32 bits);
* the argument-tail state machine (`parse_ops`) over pre-split tokens, with
  the external filter primitives (`pci_filter_init`, `pci_filter_parse_*`,
  `pci_filter_match`) abstracted as an accumulated list of filter specs and
  a match predicate.
-/

set_option autoImplicit false

deriving instance DecidableEq for Except

namespace Setpci

/-! ## Data model (struct value / struct op of setpci.c) -/

/-- A value/mask pair, as stored by `parse_op` (`struct value`). -/
structure ValueMask where
  value : Nat
  mask : Nat
deriving DecidableEq

/-- One operation (`struct op`).  `vecId` stands for the identity of the
`dev_vector` pointer: operations built under the same device selection share
the same id, and `execute` groups contiguous operations by comparing it. -/
structure Op where
  vecId : Nat
  cap : Nat
  addr : Nat
  width : Nat
  values : List ValueMask
deriving DecidableEq

/-- An abstract device: its handle (for the event trace), the external
capability locator (`pci_find_cap`; the `Bool` is `true` for
`PCI_CAP_EXTENDED`), and the external read primitives
(`pci_read_byte/word/long`), indexed by width then address. -/
structure Dev where
  devid : Nat
  findCap : Bool → Nat → Option Nat
  read : Nat → Nat → Nat

/-- An I/O event of the run: a read or a write of `width` bytes at `addr`
on device `dev` observing/committing `val`. -/
inductive Event where
  | read (dev width addr val : Nat)
  | write (dev width addr val : Nat)
deriving DecidableEq, BEq

/-- A fatal `die` condition raised during execution. -/
inductive Err where
  | capNotFound (cap : Nat)
  | outOfRange
deriving DecidableEq, BEq

def Event.isWrite : Event → Bool
  | .write _ _ _ _ => true
  | .read _ _ _ _ => false

def Event.addrOf : Event → Nat
  | .read _ _ a _ => a
  | .write _ _ a _ => a

/-- `static unsigned int max_values[] = { 0, 0xff, 0xffff, 0, 0xffffffff };` -/
def max_values : List Nat := [0, 0xff, 0xffff, 0, 0xffffffff]

/-- `max_values[width]`. -/
def maxValue (w : Nat) : Nat := max_values.getD w 0

/-- `char *formats[] = { NULL, "%02x", "%04x", NULL, "%08x" };` -/
def formats : List (Option String) :=
  [none, some "%02x", some "%04x", none, some "%08x"]

/-- `char *mask_formats[]` of `exec_op`. -/
def mask_formats : List (Option String) :=
  [none, some "%02x->(%02x:%02x)->%02x", some "%04x->(%04x:%04x)->%04x",
   none, some "%08x->(%08x:%08x)->%08x"]

/-! ## Execution engine (`exec_op` / `execute`) -/

/-- The bits `x` computed by the value loop of `exec_op` for one value/mask
pair: `x = value` when the mask covers every bit of the width
(`(mask & max_values[width]) == max_values[width]`), otherwise
`x = (y & ~mask) | value` where `y` is the freshly read old contents.
`~mask` is the 32-bit complement, written as xor with `0xffffffff`. -/
def written_value (w y : Nat) (vm : ValueMask) : Nat :=
  if vm.mask &&& maxValue w = maxValue w then vm.value
  else (y &&& (0xffffffff ^^^ vm.mask)) ||| vm.value

/-- The events of one iteration of the value loop of `exec_op` (after the
range check): a read of the old contents only when the mask does not cover
the width, then — unless demo mode (`-D`) is active — the write of the
computed bits. -/
def exec_value (demo : Bool) (dev : Dev) (w addr : Nat) (vm : ValueMask) :
    List Event :=
  (if vm.mask &&& maxValue w = maxValue w then []
   else [Event.read dev.devid w addr (dev.read w addr)]) ++
  (if demo then []
   else [Event.write dev.devid w addr (written_value w (dev.read w addr) vm)])

/-- The value loop of `exec_op` (`for (i=0; i<op->num_values; i++)`): at each
running address, first the bound check `addr + width > 0x1000` (a violation
is the fatal `die("Out of range")`), then the masked write of `exec_value`,
then the address advances by the width. -/
def exec_values (demo : Bool) (dev : Dev) (w : Nat) :
    Nat → List ValueMask → List Event × Option Err
  | _, [] => ([], none)
  | addr, vm :: rest =>
    if addr + w > 0x1000 then ([], some .outOfRange)
    else
      (exec_value demo dev w addr vm ++ (exec_values demo dev w (addr + w) rest).1,
       (exec_values demo dev w (addr + w) rest).2)

/-- Capability resolution at the head of `exec_op`: no capability yields
base 0; `0x10000..0x1ffff` is a normal capability id `cap - 0x10000`;
`0x20000..` is an extended capability id `cap - 0x20000`.  A `none` from the
locator is the fatal `die("Capability %08x not found", op->cap)`. -/
def cap_lookup (dev : Dev) (cap : Nat) : Option Nat :=
  if cap ≠ 0 then
    if cap < 0x20000 then dev.findCap false (cap - 0x10000)
    else dev.findCap true (cap - 0x20000)
  else some 0

/-- One operation on one device (`exec_op`): resolve the capability base,
add the stored offset, then either the value loop (write path) or a single
bound-checked read (read path). -/
def exec_op (demo : Bool) (op : Op) (dev : Dev) : List Event × Option Err :=
  match cap_lookup dev op.cap with
  | none => ([], some (.capNotFound op.cap))
  | some base =>
    if op.values.length ≠ 0 then
      exec_values demo dev op.width (base + op.addr) op.values
    else
      if base + op.addr + op.width > 0x1000 then ([], some .outOfRange)
      else ([Event.read dev.devid op.width (base + op.addr)
              (dev.read op.width (base + op.addr))], none)

/-- Sequencing of two event-producing computations: a fatal error in the
first (a `die`, which terminates the process) discards the second. -/
def seqE (a b : List Event × Option Err) : List Event × Option Err :=
  match a.2 with
  | none => (a.1 ++ b.1, b.2)
  | some e => (a.1, some e)

/-- The inner loop of `execute`: all operations of the active group, in
specification order, on one device. -/
def exec_ops (demo : Bool) (g : List Op) (dev : Dev) : List Event × Option Err :=
  match g with
  | [] => ([], none)
  | o :: t => seqE (exec_op demo o dev) (exec_ops demo t dev)

/-- The middle loop of `execute`: each device of the group's vector in
vector order, running the whole group on it. -/
def exec_devs (demo : Bool) (g : List Op) : List Dev → List Event × Option Err
  | [] => ([], none)
  | d :: ds => seqE (exec_ops demo g d) (exec_devs demo g ds)

/-- The outer loop of `execute` (`while (op)` of the C source), with an
explicit structural-recursion fuel: take the maximal contiguous run of
operations sharing the head's device vector, run it over that vector, then
continue with the remainder.  `V` maps a vector id to the vector's devices.
The fuel only bounds the recursion depth; `execute` supplies enough. -/
def executeF (V : Nat → List Dev) (demo : Bool) :
    Nat → List Op → List Event × Option Err
  | _, [] => ([], none)
  | 0, _ :: _ => ([], none)
  | f + 1, op :: rest =>
    seqE
      (exec_devs demo (op :: rest.takeWhile (fun o => o.vecId == op.vecId))
        (V op.vecId))
      (executeF V demo f (rest.dropWhile (fun o => o.vecId == op.vecId)))

/-- `execute`: the outer loop run to completion (the loop consumes at least
one operation per iteration, so the list's length is enough fuel). -/
def execute (V : Nat → List Dev) (demo : Bool) (ops : List Op) :
    List Event × Option Err :=
  executeF V demo ops.length ops

/-- The maximal contiguous runs of operations sharing a device vector, in
list order (the grouping performed by `execute`'s outer loop), with the same
fuel discipline. -/
def group_runsF : Nat → List Op → List (List Op)
  | _, [] => []
  | 0, _ :: _ => []
  | f + 1, op :: rest =>
    (op :: rest.takeWhile (fun o => o.vecId == op.vecId)) ::
      group_runsF f (rest.dropWhile (fun o => o.vecId == op.vecId))

/-- The maximal contiguous same-vector runs of an operation list. -/
def group_runs (ops : List Op) : List (List Op) :=
  group_runsF ops.length ops

/-- The vector id of a group (its head's). -/
def head_vec : List Op → Nat
  | [] => 0
  | o :: _ => o.vecId

/-- The execution trace as the specification words it: outer loop over the
maximal contiguous device-vector runs in list order, middle loop over that
vector's devices in vector order, inner loop over the run's operations in
specification order. -/
def execute_trace_spec (V : Nat → List Dev) (demo : Bool) (ops : List Op) :
    List Event :=
  (group_runs ops).flatMap fun g =>
    (V (head_vec g)).flatMap fun d =>
      g.flatMap fun o => (exec_op demo o d).1

/-- The write events the non-demo value loop commits: at each value's
running address, the computed bits for the old contents read there. -/
def write_events (dev : Dev) (w : Nat) : Nat → List ValueMask → List Event
  | _, [] => []
  | addr, vm :: rest =>
    Event.write dev.devid w addr (written_value w (dev.read w addr) vm) ::
      write_events dev w (addr + w) rest

/-! ## Numeric token parsing (`parse_x32`, modelling `strtoul(c, &stop, 16)`
on an LP64 platform) -/

/-- `ULONG_MAX` (`~0UL`) on the modelled LP64 platform. -/
def ULONG_MAX : Nat := 18446744073709551615

/-- `isspace` in the C locale. -/
def isSpaceC (ch : Char) : Bool :=
  ch = ' ' || ch = '\t' || ch = '\n' || ch = '\x0b' || ch = '\x0c' || ch = '\r'

/-- Hexadecimal digit value of a character, if any. -/
def hexDigit? (ch : Char) : Option Nat :=
  if '0' ≤ ch ∧ ch ≤ '9' then some (ch.toNat - '0'.toNat)
  else if 'a' ≤ ch ∧ ch ≤ 'f' then some (ch.toNat - 'a'.toNat + 10)
  else if 'A' ≤ ch ∧ ch ≤ 'F' then some (ch.toNat - 'A'.toNat + 10)
  else none

/-- Accumulate leading hex digits; returns the value and the unconsumed
remainder. -/
def hexAccum : List Char → Nat → Nat × List Char
  | [], acc => (acc, [])
  | ch :: cs, acc =>
    match hexDigit? ch with
    | some d => hexAccum cs (16 * acc + d)
    | none => (acc, ch :: cs)

/-- Does the list start with a hex digit? -/
def headIsHex (s : List Char) : Bool :=
  match s with
  | [] => false
  | ch :: _ => (hexDigit? ch).isSome

/-- `strtoul(c, &stop, 16)`: skip whitespace, optional sign, optional `0x`
prefix (consumed only when a hex digit follows), then hex digits.  Returns
`(value, endptr remainder, ERANGE flag)`; with no conversion the remainder
is the original string.  A negative sign wraps modulo `2^64`; on overflow
the value is `ULONG_MAX` and `errno` is `ERANGE`. -/
def strtoul16 (c : List Char) : Nat × List Char × Bool :=
  let s1 := c.dropWhile isSpaceC
  let (neg, s2) :=
    match s1 with
    | '-' :: t => (true, t)
    | '+' :: t => (false, t)
    | _ => (false, s1)
  let body : Option (List Char) :=
    match s2 with
    | '0' :: x :: t =>
      if (x = 'x' ∨ x = 'X') ∧ headIsHex t then some t else some s2
    | _ => if headIsHex s2 then some s2 else none
  match body with
  | none => (0, c, false)
  | some digs =>
    let (acc, rest) := hexAccum digs 0
    if acc > ULONG_MAX then (ULONG_MAX, rest, true)
    else if neg then ((ULONG_MAX + 1 - acc) % (ULONG_MAX + 1), rest, false)
    else (acc, rest, false)

/-- The three outcomes of `parse_x32`: `-1` (failure), `0` (partial parse,
with the unconsumed suffix), `1` (the whole token consumed). -/
inductive X32 where
  | fail
  | stop (v : Nat) (rest : List Char)
  | full (v : Nat)
deriving DecidableEq

/-- `parse_x32`: an empty token, an `ERANGE` from `strtoul`, or a value with
bits above 32 (`(l & ~0U) != l`) fail; otherwise the value is reported
together with whether the token was fully consumed. -/
def parse_x32 (c : List Char) : X32 :=
  if c = [] then .fail
  else
    let (l, stopTail, erange) := strtoul16 c
    if erange then .fail
    else if l &&& 0xffffffff ≠ l then .fail
    else if stopTail ≠ [] then .stop l stopTail
    else .full l

/-! ## Register name table and register resolution -/

/-- An entry of `pci_reg_names` (`struct reg_name`). -/
structure RegName where
  cap : Nat
  offset : Nat
  width : Nat
  name : String
deriving DecidableEq

set_option maxHeartbeats 2000000 in
/-- `static const struct reg_name pci_reg_names[]`. -/
def pci_reg_names : List RegName := [
  ⟨0, 0x00, 2, "VENDOR_ID"⟩,
  ⟨0, 0x02, 2, "DEVICE_ID"⟩,
  ⟨0, 0x04, 2, "COMMAND"⟩,
  ⟨0, 0x06, 2, "STATUS"⟩,
  ⟨0, 0x08, 1, "REVISION"⟩,
  ⟨0, 0x09, 1, "CLASS_PROG"⟩,
  ⟨0, 0x0a, 2, "CLASS_DEVICE"⟩,
  ⟨0, 0x0c, 1, "CACHE_LINE_SIZE"⟩,
  ⟨0, 0x0d, 1, "LATENCY_TIMER"⟩,
  ⟨0, 0x0e, 1, "HEADER_TYPE"⟩,
  ⟨0, 0x0f, 1, "BIST"⟩,
  ⟨0, 0x10, 4, "BASE_ADDRESS_0"⟩,
  ⟨0, 0x14, 4, "BASE_ADDRESS_1"⟩,
  ⟨0, 0x18, 4, "BASE_ADDRESS_2"⟩,
  ⟨0, 0x1c, 4, "BASE_ADDRESS_3"⟩,
  ⟨0, 0x20, 4, "BASE_ADDRESS_4"⟩,
  ⟨0, 0x24, 4, "BASE_ADDRESS_5"⟩,
  ⟨0, 0x28, 4, "CARDBUS_CIS"⟩,
  ⟨0, 0x2c, 4, "SUBSYSTEM_VENDOR_ID"⟩,
  ⟨0, 0x2e, 2, "SUBSYSTEM_ID"⟩,
  ⟨0, 0x30, 4, "ROM_ADDRESS"⟩,
  ⟨0, 0x3c, 1, "INTERRUPT_LINE"⟩,
  ⟨0, 0x3d, 1, "INTERRUPT_PIN"⟩,
  ⟨0, 0x3e, 1, "MIN_GNT"⟩,
  ⟨0, 0x3f, 1, "MAX_LAT"⟩,
  ⟨0, 0x18, 1, "PRIMARY_BUS"⟩,
  ⟨0, 0x19, 1, "SECONDARY_BUS"⟩,
  ⟨0, 0x1a, 1, "SUBORDINATE_BUS"⟩,
  ⟨0, 0x1b, 1, "SEC_LATENCY_TIMER"⟩,
  ⟨0, 0x1c, 1, "IO_BASE"⟩,
  ⟨0, 0x1d, 1, "IO_LIMIT"⟩,
  ⟨0, 0x1e, 2, "SEC_STATUS"⟩,
  ⟨0, 0x20, 2, "MEMORY_BASE"⟩,
  ⟨0, 0x22, 2, "MEMORY_LIMIT"⟩,
  ⟨0, 0x24, 2, "PREF_MEMORY_BASE"⟩,
  ⟨0, 0x26, 2, "PREF_MEMORY_LIMIT"⟩,
  ⟨0, 0x28, 4, "PREF_BASE_UPPER32"⟩,
  ⟨0, 0x2c, 4, "PREF_LIMIT_UPPER32"⟩,
  ⟨0, 0x30, 2, "IO_BASE_UPPER16"⟩,
  ⟨0, 0x32, 2, "IO_LIMIT_UPPER16"⟩,
  ⟨0, 0x38, 4, "BRIDGE_ROM_ADDRESS"⟩,
  ⟨0, 0x3e, 2, "BRIDGE_CONTROL"⟩,
  ⟨0, 0x10, 4, "CB_CARDBUS_BASE"⟩,
  ⟨0, 0x14, 2, "CB_CAPABILITIES"⟩,
  ⟨0, 0x16, 2, "CB_SEC_STATUS"⟩,
  ⟨0, 0x18, 1, "CB_BUS_NUMBER"⟩,
  ⟨0, 0x19, 1, "CB_CARDBUS_NUMBER"⟩,
  ⟨0, 0x1a, 1, "CB_SUBORDINATE_BUS"⟩,
  ⟨0, 0x1b, 1, "CB_CARDBUS_LATENCY"⟩,
  ⟨0, 0x1c, 4, "CB_MEMORY_BASE_0"⟩,
  ⟨0, 0x20, 4, "CB_MEMORY_LIMIT_0"⟩,
  ⟨0, 0x24, 4, "CB_MEMORY_BASE_1"⟩,
  ⟨0, 0x28, 4, "CB_MEMORY_LIMIT_1"⟩,
  ⟨0, 0x2c, 2, "CB_IO_BASE_0"⟩,
  ⟨0, 0x2e, 2, "CB_IO_BASE_0_HI"⟩,
  ⟨0, 0x30, 2, "CB_IO_LIMIT_0"⟩,
  ⟨0, 0x32, 2, "CB_IO_LIMIT_0_HI"⟩,
  ⟨0, 0x34, 2, "CB_IO_BASE_1"⟩,
  ⟨0, 0x36, 2, "CB_IO_BASE_1_HI"⟩,
  ⟨0, 0x38, 2, "CB_IO_LIMIT_1"⟩,
  ⟨0, 0x3a, 2, "CB_IO_LIMIT_1_HI"⟩,
  ⟨0, 0x40, 2, "CB_SUBSYSTEM_VENDOR_ID"⟩,
  ⟨0, 0x42, 2, "CB_SUBSYSTEM_ID"⟩,
  ⟨0, 0x44, 4, "CB_LEGACY_MODE_BASE"⟩,
  ⟨0x10001, 0, 0, "CAP_PM"⟩,
  ⟨0x10002, 0, 0, "CAP_AGP"⟩,
  ⟨0x10003, 0, 0, "CAP_VPD"⟩,
  ⟨0x10004, 0, 0, "CAP_SLOTID"⟩,
  ⟨0x10005, 0, 0, "CAP_MSI"⟩,
  ⟨0x10006, 0, 0, "CAP_CHSWP"⟩,
  ⟨0x10007, 0, 0, "CAP_PCIX"⟩,
  ⟨0x10008, 0, 0, "CAP_HT"⟩,
  ⟨0x10009, 0, 0, "CAP_VNDR"⟩,
  ⟨0x1000a, 0, 0, "CAP_DBG"⟩,
  ⟨0x1000b, 0, 0, "CAP_CCRC"⟩,
  ⟨0x1000c, 0, 0, "CAP_HOTPLUG"⟩,
  ⟨0x1000d, 0, 0, "CAP_SSVID"⟩,
  ⟨0x1000e, 0, 0, "CAP_AGP3"⟩,
  ⟨0x1000f, 0, 0, "CAP_SECURE"⟩,
  ⟨0x10010, 0, 0, "CAP_EXP"⟩,
  ⟨0x10011, 0, 0, "CAP_MSIX"⟩,
  ⟨0x10012, 0, 0, "CAP_SATA"⟩,
  ⟨0x10013, 0, 0, "CAP_AF"⟩,
  ⟨0x20001, 0, 0, "ECAP_AER"⟩,
  ⟨0x20002, 0, 0, "ECAP_VC"⟩,
  ⟨0x20003, 0, 0, "ECAP_DSN"⟩,
  ⟨0x20004, 0, 0, "ECAP_PB"⟩,
  ⟨0x20005, 0, 0, "ECAP_RCLINK"⟩,
  ⟨0x20006, 0, 0, "ECAP_RCILINK"⟩,
  ⟨0x20007, 0, 0, "ECAP_RCECOLL"⟩,
  ⟨0x20008, 0, 0, "ECAP_MFVC"⟩,
  ⟨0x2000a, 0, 0, "ECAP_RBCB"⟩,
  ⟨0x2000b, 0, 0, "ECAP_VNDR"⟩,
  ⟨0x2000d, 0, 0, "ECAP_ACS"⟩,
  ⟨0x2000e, 0, 0, "ECAP_ARI"⟩,
  ⟨0x2000f, 0, 0, "ECAP_ATS"⟩,
  ⟨0x20010, 0, 0, "ECAP_SRIOV"⟩]

/-- `tolower` in the C locale. -/
def lowerC (ch : Char) : Char :=
  if 'A' ≤ ch ∧ ch ≤ 'Z' then Char.ofNat (ch.toNat + 32) else ch

/-- `strcasecmp(a, b) == 0`. -/
def strcaseeq (a b : List Char) : Bool :=
  a.map lowerC == b.map lowerC

/-- `strncasecmp(s, pat, pat.length) == 0` for a pattern without NUL. -/
def startsWithCI (pat : List Char) (s : List Char) : Bool :=
  (s.take pat.length).map lowerC == pat.map lowerC

/-- `parse_reg_name`: the first table entry whose name matches the token
case-insensitively. -/
def parse_reg_name (name : List Char) : Option RegName :=
  pci_reg_names.find? (fun r => strcaseeq r.name.toList name)

/-- The parse-time `usage(...)`/`die(...)` failures (each terminates the
process before any device access; the payload is the offending token). -/
inductive PErr where
  | missingValue
  | invalidWidth
  | unknownRegister (tok : List Char)
  | missingWidth
  | invalidOffset (tok : List Char)
  | outOfRange
  | unaligned
  | invalidValue (tok : List Char)
  | valueOutOfRange (tok : List Char)
  | invalidMask (tok : List Char)
  | maskOutOfRange (tok : List Char)
deriving DecidableEq, BEq

/-- `parse_register`: resolve a base token into `(cap, addr, width)`, given
the width `w0` fixed so far by the `.B/.W/.L` suffix (0 if none):
a fully-parsed hex number; else a register-name table entry (adopting the
table's width only when it is nonzero and `w0` is zero); else `CAP` followed
by a fully-parsed hex number `< 0x100`; else `ECAP` followed by a
fully-parsed hex number `< 0x1000`; else `usage("Unknown register ...")`. -/
def parse_register (w0 : Nat) (base : List Char) :
    Except PErr (Nat × Nat × Nat) :=
  match parse_x32 base with
  | .full v => .ok (0, v, w0)
  | _ =>
    match parse_reg_name base with
    | some r =>
      .ok (r.cap, r.offset, if r.width ≠ 0 ∧ w0 = 0 then r.width else w0)
    | none =>
      if startsWithCI ['C', 'A', 'P'] base then
        match parse_x32 (base.drop 3) with
        | .full v =>
          if v < 0x100 then .ok (0x10000 + v, 0, w0)
          else .error (.unknownRegister base)
        | _ => .error (.unknownRegister base)
      else if startsWithCI ['E', 'C', 'A', 'P'] base then
        match parse_x32 (base.drop 4) with
        | .full v =>
          if v < 0x1000 then .ok (0x20000 + v, 0, w0)
          else .error (.unknownRegister base)
        | _ => .error (.unknownRegister base)
      else .error (.unknownRegister base)

/-! ## Operation parsing (`parse_op`) -/

/-- Split at the first occurrence of a character (`strchr` + NUL overwrite):
the part before it, and — when found — the part after it. -/
def splitFirst (ch : Char) : List Char → List Char × Option (List Char)
  | [] => ([], none)
  | c :: cs =>
    if c = ch then ([], some cs)
    else
      let (a, b) := splitFirst ch cs
      (c :: a, b)

/-- The `.B/.W/.L` width suffix: exactly one character, upcased by
`& 0xdf`; absent yields width 0 (to be filled by the register table). -/
def parse_width : Option (List Char) → Except PErr Nat
  | none => .ok 0
  | some [w] =>
    if w.toNat &&& 0xdf = 0x42 then .ok 1
    else if w.toNat &&& 0xdf = 0x57 then .ok 2
    else if w.toNat &&& 0xdf = 0x4c then .ok 4
    else .error .invalidWidth
  | some _ => .error .invalidWidth

/-- The `+offset` suffix: a fully-parsed hex number `< 0x1000`, added to the
resolved address in 32-bit arithmetic (`op->addr += off`). -/
def apply_offset (addr0 : Nat) : Option (List Char) → Except PErr Nat
  | none => .ok addr0
  | some off =>
    match parse_x32 off with
    | .full v =>
      if v < 0x1000 then .ok ((addr0 + v) % 4294967296)
      else .error (.invalidOffset off)
    | _ => .error (.invalidOffset off)

/-- The static range/alignment check of `parse_op`:
`die("Register number out of range!")` when `addr >= 0x1000` or
`addr + width*(n ? n : 1) > 0x1000`; then
`die("Unaligned register address!")` when `addr & (width - 1)` is nonzero. -/
def check_range (addr w n : Nat) : Except PErr Unit :=
  if addr ≥ 0x1000 ∨ addr + w * (if n = 0 then 1 else n) > 0x1000 then
    .error .outOfRange
  else if addr &&& (w - 1) ≠ 0 then .error .unaligned
  else .ok ()

/-- The out-of-range test applied to each parsed value and mask literal:
`ll > lim && ll < ~0UL - lim`. -/
def value_out_of_range (ll lim : Nat) : Bool :=
  lim < ll && ll < ULONG_MAX - lim

/-- One `value[:mask]` segment of the value list.  The value must parse as
hex and be followed by nothing or by `:`; it is range-checked against the
width's maximum; an explicit mask must be a fully-parsed, range-checked hex
number, and the stored value is pre-masked (`value &= mask`); an absent
mask defaults to `~0U`.  (When the value consumes the whole segment the C
code leaves `f` unset — a latent uninitialized read; the model takes the
intended meaning: no mask follows.) -/
def parse_one_value (lim : Nat) (seg : List Char) : Except PErr ValueMask :=
  match parse_x32 seg with
  | .fail => .error (.invalidValue seg)
  | .stop ll rest =>
    if rest.headD ' ' ≠ ':' then .error (.invalidValue seg)
    else if value_out_of_range ll lim then .error (.valueOutOfRange seg)
    else
      match parse_x32 (rest.drop 1) with
      | .full m =>
        if value_out_of_range m lim then .error (.maskOutOfRange (rest.drop 1))
        else .ok ⟨ll &&& m, m⟩
      | _ => .error (.invalidMask (rest.drop 1))
  | .full ll =>
    if value_out_of_range ll lim then .error (.valueOutOfRange seg)
    else .ok ⟨ll, 0xffffffff⟩

/-- The value loop of `parse_op` (`for (j=0; j<n; j++)`): split the next
comma-separated segment and parse it; the first failure wins. -/
def parse_values (lim : Nat) : Nat → List Char → Except PErr (List ValueMask)
  | 0, _ => .ok []
  | k + 1, value =>
    let (seg, e) := splitFirst ',' value
    match parse_one_value lim seg with
    | .error er => .error er
    | .ok vm =>
      match parse_values lim k (e.getD []) with
      | .error er => .error er
      | .ok rest => .ok (vm :: rest)

/-- `parse_op`: split the raw spec on `=`, then `.`, then `+` (each search
scanning only what precedes the earlier split), count the values, parse the
width suffix, resolve the register, reject a still-unknown width, apply the
offset, run the static range/alignment check, and parse the values.  The
resulting operation is bound to the device vector `vecId`. -/
def parse_op (vecId : Nat) (c : List Char) : Except PErr Op :=
  let (b1, valueTail) := splitFirst '=' c
  let (b2, widthTail) := splitFirst '.' b1
  let (base, offsetTail) := splitFirst '+' b2
  match (match valueTail with
         | none => Except.ok 0
         | some v =>
           if v = [] then Except.error PErr.missingValue
           else Except.ok (1 + v.count ',')) with
  | .error e => .error e
  | .ok n =>
  match parse_width widthTail with
  | .error e => .error e
  | .ok w0 =>
  match parse_register w0 base with
  | .error e => .error e
  | .ok (cap, addr0, w1) =>
  if w1 = 0 then .error .missingWidth
  else
  match apply_offset addr0 offsetTail with
  | .error e => .error e
  | .ok addr =>
  match check_range addr w1 n with
  | .error e => .error e
  | .ok _ =>
  match valueTail with
  | none => .ok ⟨vecId, cap, addr, w1, []⟩
  | some v =>
    match parse_values (maxValue w1) n v with
    | .error e => .error e
    | .ok vals => .ok ⟨vecId, cap, addr, w1, vals⟩

/-! ## The argument-tail state machine (`parse_ops`)

Tokens are pre-split: a `.filter f` token stands for a `-s`/`-d` argument
(with its parameter) whose parsed spec is the abstract `f`; `pci_filter_*`
is external, so a filter object is modelled as the list of specs merged into
it since its last `pci_filter_init`, and matching is an oracle predicate
over that list.  Devices are handles (`pacc->devices` in master order). -/

/-- A token of the argument tail after the general options. -/
inductive Tok where
  | filter (f : Nat)
  | op (s : List Char)
deriving DecidableEq

/-- `enum { STATE_INIT, STATE_GOT_FILTER, STATE_GOT_OP }`. -/
inductive PState where
  | start
  | gotFilter
  | gotOp
deriving DecidableEq, BEq

/-- Observable effects of `parse_ops`, in order. -/
inductive PEvent where
  | filterInit
  | filterAdd (f : Nat)
  | selectDevs (vec : List Nat)
  | warnEmpty
  | buildOp (o : Op)
  | usageNoDev
  | usageNoOp
  | parseFail (e : PErr)
deriving DecidableEq, BEq

/-- `select_devices`: scan the full device list and copy every handle the
filter matches, in master-list order (the NULL terminator is implicit). -/
def select_devices (pred : List Nat → Nat → Bool) (filt : List Nat) :
    List Nat → List Nat
  | [] => []
  | z :: rest =>
    if pred filt z then z :: select_devices pred filt rest
    else select_devices pred filt rest

/-- The running state of `parse_ops`: parser state, current filter contents,
current device vector and its identity, a counter for fresh vector
identities, the operation list built so far, the events emitted so far, and
whether a `usage`/`die` has terminated the process. -/
structure PST where
  state : PState
  filt : List Nat
  sel : List Nat
  selId : Nat
  nextId : Nat
  ops : List Op
  events : List PEvent
  dead : Bool
deriving DecidableEq

/-- One iteration of the `parse_ops` token loop.  A filter token
re-initializes the filter only when the state is not `GOT_FILTER`, merges
the spec, and enters `GOT_FILTER`.  An operation token in `INIT` is
`usage(NULL)`; otherwise the device vector is materialized first if the
state is `GOT_FILTER`, an empty vector warns unless force mode is set, and
the operation is parsed and appended. -/
def pstep (pred : List Nat → Nat → Bool) (devs : List Nat) (force : Bool)
    (s : PST) (t : Tok) : PST :=
  if s.dead then s
  else
    match t with
    | .filter f =>
      if s.state ≠ .gotFilter then
        { s with state := .gotFilter, filt := [f],
                 events := s.events ++ [.filterInit, .filterAdd f] }
      else
        { s with state := .gotFilter, filt := s.filt ++ [f],
                 events := s.events ++ [.filterAdd f] }
    | .op c =>
      if s.state = .start then
        { s with dead := true, events := s.events ++ [.usageNoDev] }
      else
        let sel' := if s.state = .gotFilter then select_devices pred s.filt devs
                    else s.sel
        let selId' := if s.state = .gotFilter then s.nextId else s.selId
        let nextId' := if s.state = .gotFilter then s.nextId + 1 else s.nextId
        let ev1 := if s.state = .gotFilter then [PEvent.selectDevs sel'] else []
        let ev2 := if sel' = [] ∧ force = false then [PEvent.warnEmpty] else []
        match parse_op selId' c with
        | .error e =>
          { s with sel := sel', selId := selId', nextId := nextId',
                   dead := true, events := s.events ++ ev1 ++ ev2 ++ [.parseFail e] }
        | .ok o =>
          { s with state := .gotOp, sel := sel', selId := selId',
                   nextId := nextId', ops := s.ops ++ [o],
                   events := s.events ++ ev1 ++ ev2 ++ [.buildOp o] }

/-- The initial state of `parse_ops`. -/
def pstInit : PST := ⟨.start, [], [], 0, 0, [], [], false⟩

/-- The token loop of `parse_ops`. -/
def run_toks (pred : List Nat → Nat → Bool) (devs : List Nat) (force : Bool)
    (ts : List Tok) : PST :=
  ts.foldl (pstep pred devs force) pstInit

/-- `parse_ops`: run the token loop, then raise
`usage("No operation specified")` when the loop finished (no earlier exit)
still in the `INIT` state. -/
def parse_ops (pred : List Nat → Nat → Bool) (devs : List Nat) (force : Bool)
    (ts : List Tok) : PST :=
  let s := run_toks pred devs force ts
  if s.dead = false ∧ s.state = .start then
    { s with dead := true, events := s.events ++ [.usageNoOp] }
  else s

/-! ## Helper lemmas -/

theorem land_two_pow_sub_one (a k : Nat) : a &&& (2 ^ k - 1) = a % 2 ^ k := by
  apply Nat.eq_of_testBit_eq
  intro i
  simp only [Nat.testBit_and, Nat.testBit_two_pow_sub_one, Nat.testBit_mod_two_pow]
  exact Bool.and_comm _ _

theorem testBit_of_land_max {mask k : Nat} (h : mask &&& (2 ^ k - 1) = 2 ^ k - 1)
    {i : Nat} (hik : i < k) : mask.testBit i = true := by
  have h1 := congrArg (fun x => Nat.testBit x i) h
  simp only [Nat.testBit_and, Nat.testBit_two_pow_sub_one, decide_eq_true hik,
    Bool.and_true] at h1
  exact h1

theorem land_compl_eq_zero {old mask n : Nat} (hn : n ≤ 32) (hold : old < 2 ^ n)
    (hm : ∀ i, i < n → mask.testBit i = true) :
    old &&& (0xffffffff ^^^ mask) = 0 := by
  apply Nat.eq_of_testBit_eq
  intro i
  simp only [Nat.testBit_and, Nat.testBit_xor, Nat.zero_testBit]
  by_cases hi : i < n
  · have h32 : (0xffffffff : Nat) = 2 ^ 32 - 1 := by norm_num
    rw [h32, Nat.testBit_two_pow_sub_one, decide_eq_true (lt_of_lt_of_le hi hn),
      hm i hi]
    simp
  · have hzero : old.testBit i = false :=
      Nat.testBit_lt_two_pow
        (lt_of_lt_of_le hold (Nat.pow_le_pow_right (by norm_num) (le_of_not_lt hi)))
    rw [hzero]
    rfl

theorem maxValue_eq_two_pow {w : Nat} (hw : w = 1 ∨ w = 2 ∨ w = 4) :
    maxValue w = 2 ^ (8 * w) - 1 := by
  rcases hw with h | h | h <;> subst h <;> decide

/-! ## Claim theorems -/

/-- Claim C1: for an executed write of a pre-masked value/mask pair at width
`w`, the bits written are `(old & ~mask) | (value & mask)`; when the mask
restricted to the width is all-ones the bits are exactly the stored value,
no read occurs, and the result does not depend on the old contents;
otherwise the engine first reads the old contents and writes
`(old & ~mask) | value`. -/
theorem claim_C1 (demo : Bool) (dev : Dev) (w addr v0 mask old : Nat)
    (hw : w = 1 ∨ w = 2 ∨ w = 4) (hold : old ≤ maxValue w) :
    written_value w old ⟨v0 &&& mask, mask⟩ =
      (old &&& (0xffffffff ^^^ mask)) ||| (v0 &&& mask) ∧
    (mask &&& maxValue w = maxValue w →
      (∀ e ∈ exec_value demo dev w addr ⟨v0 &&& mask, mask⟩, e.isWrite = true) ∧
      ∀ old2, written_value w old2 ⟨v0 &&& mask, mask⟩ = v0 &&& mask) ∧
    (mask &&& maxValue w ≠ maxValue w →
      exec_value false dev w addr ⟨v0 &&& mask, mask⟩ =
        [Event.read dev.devid w addr (dev.read w addr),
         Event.write dev.devid w addr
           ((dev.read w addr &&& (0xffffffff ^^^ mask)) ||| (v0 &&& mask))]) := by
  have hmax := maxValue_eq_two_pow hw
  have hcompl : mask &&& maxValue w = maxValue w →
      old &&& (0xffffffff ^^^ mask) = 0 := by
    intro hfull
    have h8w : 8 * w ≤ 32 := by rcases hw with h | h | h <;> subst h <;> decide
    have holdlt : old < 2 ^ (8 * w) := by
      have : maxValue w < 2 ^ (8 * w) := by
        rw [hmax]
        exact Nat.sub_lt (Nat.pos_pow_of_pos _ (by norm_num)) (by norm_num)
      omega
    exact land_compl_eq_zero h8w holdlt
      (fun i hi => testBit_of_land_max (hmax ▸ hfull) hi)
  refine ⟨?_, ?_, ?_⟩
  · unfold written_value
    by_cases hfull : mask &&& maxValue w = maxValue w
    · rw [if_pos hfull, hcompl hfull, Nat.zero_or]
    · rw [if_neg hfull]
  · intro hfull
    constructor
    · intro e he
      unfold exec_value at he
      rw [if_pos hfull] at he
      rw [List.nil_append] at he
      split at he
      · exact absurd he (List.not_mem_nil e)
      · simp only [List.mem_singleton] at he
        subst he
        rfl
    · intro old2
      unfold written_value
      rw [if_pos hfull]
  · intro hpart
    unfold exec_value written_value
    rw [if_neg hpart, if_neg hpart]
    rfl

/-- Device used by concrete witnesses: no capabilities, every read observes
`0xa5` (the old contents of the spec's Scenario 2). -/
def devA5 : Dev := ⟨1, fun _ _ => none, fun _ _ => 0xa5⟩

/-- Witness for claim C1, instantiating the spec's Scenario 2
(`04.B=02:0f` against old contents `0xa5`): the masked write reads `0xa5`
and writes `0xa2`. -/
theorem claim_C1_witness :
    exec_value false devA5 1 4 ⟨2 &&& 0x0f, 0x0f⟩ =
      [Event.read 1 1 4 0xa5, Event.write 1 1 4 0xa2] :=
  (claim_C1 false devA5 1 4 2 0x0f 0xa5 (by decide) (by decide)).2.2 (by decide)

theorem seqE_of_none {a b : List Event × Option Err} (h : a.2 = none) :
    seqE a b = (a.1 ++ b.1, b.2) := by
  unfold seqE
  rw [h]

theorem executeF_eq_of_le (V : Nat → List Dev) (demo : Bool) :
    ∀ f (ops : List Op), ops.length ≤ f →
      executeF V demo f ops = execute V demo ops := by
  intro f
  induction f using Nat.strong_induction_on with
  | _ f ih =>
    intro ops h
    match ops with
    | [] => cases f <;> rfl
    | op :: rest =>
      match f with
      | 0 => simp at h
      | f + 1 =>
        have hr : rest.length ≤ f := by
          simp only [List.length_cons] at h
          omega
        have hd : (rest.dropWhile (fun o => o.vecId == op.vecId)).length ≤
            rest.length := (List.dropWhile_sublist _).length_le
        unfold execute
        simp only [List.length_cons, executeF]
        rw [ih f (Nat.lt_succ_self f) _ (le_trans hd hr),
          ih rest.length (Nat.lt_succ_of_le hr) _ hd]

theorem execute_cons (V : Nat → List Dev) (demo : Bool) (op : Op)
    (rest : List Op) :
    execute V demo (op :: rest) =
      seqE
        (exec_devs demo (op :: rest.takeWhile (fun o => o.vecId == op.vecId))
          (V op.vecId))
        (execute V demo (rest.dropWhile (fun o => o.vecId == op.vecId))) := by
  unfold execute
  simp only [List.length_cons, executeF]
  rw [executeF_eq_of_le V demo rest.length _ ((List.dropWhile_sublist _).length_le)]
  rfl

theorem group_runsF_eq_of_le :
    ∀ f (ops : List Op), ops.length ≤ f → group_runsF f ops = group_runs ops := by
  intro f
  induction f using Nat.strong_induction_on with
  | _ f ih =>
    intro ops h
    match ops with
    | [] => cases f <;> rfl
    | op :: rest =>
      match f with
      | 0 => simp at h
      | f + 1 =>
        have hr : rest.length ≤ f := by
          simp only [List.length_cons] at h
          omega
        have hd : (rest.dropWhile (fun o => o.vecId == op.vecId)).length ≤
            rest.length := (List.dropWhile_sublist _).length_le
        unfold group_runs
        simp only [List.length_cons, group_runsF]
        rw [ih f (Nat.lt_succ_self f) _ (le_trans hd hr),
          ih rest.length (Nat.lt_succ_of_le hr) _ hd]

theorem group_runs_cons (op : Op) (rest : List Op) :
    group_runs (op :: rest) =
      (op :: rest.takeWhile (fun o => o.vecId == op.vecId)) ::
        group_runs (rest.dropWhile (fun o => o.vecId == op.vecId)) := by
  unfold group_runs
  simp only [List.length_cons, group_runsF]
  rw [group_runsF_eq_of_le rest.length _ ((List.dropWhile_sublist _).length_le)]
  rfl

theorem exec_ops_of_none {demo : Bool} {d : Dev} {g : List Op}
    (h : ∀ o ∈ g, (exec_op demo o d).2 = none) :
    exec_ops demo g d = (g.flatMap fun o => (exec_op demo o d).1, none) := by
  induction g with
  | nil => rfl
  | cons o t ih =>
    rw [exec_ops, seqE_of_none (h o (List.mem_cons_self o t)),
      ih fun x hx => h x (List.mem_cons_of_mem o hx), List.flatMap_cons]

theorem exec_devs_of_none {demo : Bool} {g : List Op} {ds : List Dev}
    (h : ∀ d ∈ ds, ∀ o ∈ g, (exec_op demo o d).2 = none) :
    exec_devs demo g ds =
      (ds.flatMap fun d => g.flatMap fun o => (exec_op demo o d).1, none) := by
  induction ds with
  | nil => rfl
  | cons d t ih =>
    rw [exec_devs, exec_ops_of_none (h d (List.mem_cons_self d t)),
      seqE_of_none rfl, ih fun x hx => h x (List.mem_cons_of_mem d hx),
      List.flatMap_cons]

/-- Claim C2: when no operation dies, the execution trace is the outer loop
over maximal contiguous same-vector runs in list order, the middle loop over
the vector's devices in vector order, and the inner loop over the run's
operations in specification order. -/
theorem claim_C2 (V : Nat → List Dev) (demo : Bool) (ops : List Op)
    (h : ∀ op ∈ ops, ∀ d ∈ V op.vecId, (exec_op demo op d).2 = none) :
    execute V demo ops = (execute_trace_spec V demo ops, none) := by
  suffices H : ∀ N (l : List Op), l.length ≤ N →
      (∀ op ∈ l, ∀ d ∈ V op.vecId, (exec_op demo op d).2 = none) →
      execute V demo l = (execute_trace_spec V demo l, none) from
    H ops.length ops le_rfl h
  intro N
  induction N with
  | zero =>
    intro l hlen _
    have : l = [] := List.eq_nil_of_length_eq_zero (Nat.le_zero.mp hlen)
    subst this
    rfl
  | succ N ih =>
    intro l hlen hok
    match l with
    | [] => rfl
    | op :: rest =>
      have hgrp : ∀ d ∈ V op.vecId,
          ∀ o ∈ op :: rest.takeWhile (fun o => o.vecId == op.vecId),
          (exec_op demo o d).2 = none := by
        intro d hd o ho
        rcases List.mem_cons.mp ho with rfl | ho
        · exact hok o (List.mem_cons_self o rest) d hd
        · have hp := List.mem_takeWhile_imp ho
          simp only [beq_iff_eq] at hp
          exact hok o
            (List.mem_cons_of_mem op ((List.takeWhile_sublist _).subset ho)) d
            (hp ▸ hd)
      have hrest : ∀ o ∈ rest.dropWhile (fun o => o.vecId == op.vecId),
          ∀ d ∈ V o.vecId, (exec_op demo o d).2 = none := fun o ho =>
        hok o (List.mem_cons_of_mem op ((List.dropWhile_sublist _).subset ho))
      have hlen2 : (rest.dropWhile (fun o => o.vecId == op.vecId)).length ≤ N := by
        have := (List.dropWhile_sublist
          (fun o => o.vecId == op.vecId) (l := rest)).length_le
        simp only [List.length_cons] at hlen
        omega
      rw [execute_cons, exec_devs_of_none fun d hd o ho => hgrp d hd o ho,
        seqE_of_none rfl, ih _ hlen2 hrest]
      unfold execute_trace_spec
      rw [group_runs_cons, List.flatMap_cons]
      rfl

/-- Devices for the witness of claim C2 (three distinct handles, with
distinct read oracles). -/
def devW1 : Dev := ⟨1, fun _ _ => none, fun _ _ => 0xa1⟩
def devW2 : Dev := ⟨2, fun _ _ => none, fun _ _ => 0xb2⟩
def devW3 : Dev := ⟨3, fun _ _ => none, fun _ _ => 0xc3⟩

/-- The device-vector environment of the witness of claim C2: vector 1 is
`[devW1, devW2]`, vector 2 is `[devW3]`. -/
def vecEnvW : Nat → List Dev := fun n => if n = 1 then [devW1, devW2] else [devW3]

/-- The operations of the witness of claim C2: `opA` and `opB` on vector 1,
`opC` on vector 2 (all pure reads at distinct addresses). -/
def opsW : List Op := [⟨1, 0, 0, 1, []⟩, ⟨1, 0, 4, 1, []⟩, ⟨2, 0, 8, 1, []⟩]

/-- Witness for claim C2: on the claim's own example — operations
`[opA, opB]` on group 1 and `[opC]` on group 2, group 1 matching devices
`[d1, d2]` — the trace is `(d1,opA), (d1,opB), (d2,opA), (d2,opB)` and then
`opC` on group 2's devices. -/
theorem claim_C2_witness :
    execute vecEnvW false opsW = (execute_trace_spec vecEnvW false opsW, none) ∧
    execute_trace_spec vecEnvW false opsW =
      [Event.read 1 1 0 0xa1, Event.read 1 1 4 0xa1,
       Event.read 2 1 0 0xb2, Event.read 2 1 4 0xb2,
       Event.read 3 1 8 0xc3] :=
  ⟨claim_C2 vecEnvW false opsW (by decide), by decide⟩

theorem exec_value_demo (dev : Dev) (w addr : Nat) (vm : ValueMask) :
    exec_value true dev w addr vm =
      (exec_value false dev w addr vm).filter (fun e => !e.isWrite) := by
  unfold exec_value
  by_cases h : vm.mask &&& maxValue w = maxValue w <;>
    simp [h, Event.isWrite, List.filter]

theorem exec_values_demo (dev : Dev) (w : Nat) : ∀ (addr : Nat) (vms : List ValueMask),
    exec_values true dev w addr vms =
      ((exec_values false dev w addr vms).1.filter (fun e => !e.isWrite),
        (exec_values false dev w addr vms).2) := by
  intro addr vms
  induction vms generalizing addr with
  | nil => rfl
  | cons vm rest ih =>
    simp only [exec_values]
    by_cases h : addr + w > 0x1000
    · rw [if_pos h, if_pos h]
      rfl
    · rw [if_neg h, if_neg h, ih]
      simp [List.filter_append, exec_value_demo]

theorem exec_op_demo (op : Op) (dev : Dev) :
    exec_op true op dev =
      ((exec_op false op dev).1.filter (fun e => !e.isWrite),
        (exec_op false op dev).2) := by
  unfold exec_op
  cases h : cap_lookup dev op.cap with
  | none => rfl
  | some base =>
    by_cases hv : op.values.length ≠ 0
    · simp only [if_pos hv]
      exact exec_values_demo dev op.width (base + op.addr) op.values
    · simp only [if_neg hv]
      by_cases hr : base + op.addr + op.width > 0x1000
      · rw [if_pos hr]
        rfl
      · rw [if_neg hr]
        simp [Event.isWrite, List.filter]

theorem seqE_filter (f : Event → Bool) (a b : List Event × Option Err) :
    seqE (a.1.filter f, a.2) (b.1.filter f, b.2) =
      ((seqE a b).1.filter f, (seqE a b).2) := by
  unfold seqE
  cases h : a.2 <;> simp [List.filter_append]

theorem exec_ops_demo (g : List Op) (dev : Dev) :
    exec_ops true g dev =
      ((exec_ops false g dev).1.filter (fun e => !e.isWrite),
        (exec_ops false g dev).2) := by
  induction g with
  | nil => rfl
  | cons o t ih =>
    show seqE (exec_op true o dev) (exec_ops true t dev) = _
    rw [exec_op_demo, ih, seqE_filter]
    rfl

theorem exec_devs_demo (g : List Op) : ∀ ds : List Dev,
    exec_devs true g ds =
      ((exec_devs false g ds).1.filter (fun e => !e.isWrite),
        (exec_devs false g ds).2) := by
  intro ds
  induction ds with
  | nil => rfl
  | cons d t ih =>
    show seqE (exec_ops true g d) (exec_devs true g t) = _
    rw [exec_ops_demo, ih, seqE_filter]
    rfl

theorem executeF_demo (V : Nat → List Dev) : ∀ (f : Nat) (ops : List Op),
    executeF V true f ops =
      ((executeF V false f ops).1.filter (fun e => !e.isWrite),
        (executeF V false f ops).2) := by
  intro f
  induction f with
  | zero => intro ops; cases ops <;> rfl
  | succ f ih =>
    intro ops
    cases ops with
    | nil => rfl
    | cons op rest =>
      show seqE (exec_devs true _ _) (executeF V true f _) = _
      rw [exec_devs_demo, ih, seqE_filter]
      rfl

theorem execute_demo (V : Nat → List Dev) (ops : List Op) :
    execute V true ops =
      ((execute V false ops).1.filter (fun e => !e.isWrite),
        (execute V false ops).2) :=
  executeF_demo V ops.length ops

theorem exec_values_writes (dev : Dev) (w : Nat) :
    ∀ (addr : Nat) (vms : List ValueMask),
      (exec_values false dev w addr vms).2 = none →
      (exec_values false dev w addr vms).1.filter (fun e => e.isWrite) =
        write_events dev w addr vms := by
  intro addr vms
  induction vms generalizing addr with
  | nil => intro _; rfl
  | cons vm rest ih =>
    intro hok
    rw [exec_values] at hok ⊢
    by_cases h : addr + w > 0x1000
    · rw [if_pos h] at hok
      exact absurd hok (by simp)
    · rw [if_neg h] at hok ⊢
      simp only [List.filter_append]
      rw [ih (addr + w) hok]
      have hval : (exec_value false dev w addr vm).filter (fun e => e.isWrite) =
          [Event.write dev.devid w addr (written_value w (dev.read w addr) vm)] := by
        unfold exec_value
        by_cases hm : vm.mask &&& maxValue w = maxValue w <;>
          simp [hm, Event.isWrite, List.filter]
      rw [hval]
      rfl

/-- Claim C8: when demo mode is active no write is ever committed, while
the trace is otherwise identical to the non-demo run (same reads — including
the reads needed for masked writes — and the same fatal outcome); when demo
mode is inactive, the committed writes are exactly the computed bits at each
value's running address. -/
theorem claim_C8 (V : Nat → List Dev) (ops : List Op) (op : Op) (dev : Dev)
    (base : Nat) :
    (execute V true ops).1.filter (fun e => e.isWrite) = [] ∧
    exec_op true op dev =
      ((exec_op false op dev).1.filter (fun e => !e.isWrite),
        (exec_op false op dev).2) ∧
    (cap_lookup dev op.cap = some base → (exec_op false op dev).2 = none →
      (exec_op false op dev).1.filter (fun e => e.isWrite) =
        write_events dev op.width (base + op.addr) op.values) := by
  refine ⟨?_, exec_op_demo op dev, ?_⟩
  · rw [execute_demo]
    rw [List.filter_filter]
    apply List.filter_eq_nil_iff.mpr
    intro e _
    cases e <;> simp [Event.isWrite]
  · intro hcap hok
    rw [exec_op] at hok ⊢
    rw [hcap] at hok ⊢
    dsimp only at hok ⊢
    by_cases hv : op.values.length ≠ 0
    · rw [if_pos hv] at hok ⊢
      exact exec_values_writes dev op.width (base + op.addr) op.values hok
    · rw [if_neg hv] at hok ⊢
      have : op.values = [] := List.length_eq_zero.mp (by omega)
      rw [this]
      by_cases hr : base + op.addr + op.width > 0x1000
      · rw [if_pos hr] at hok
        exact absurd hok (by simp)
      · rw [if_neg hr]
        simp [Event.isWrite, List.filter, write_events]

/-- Witness for claim C8: the masked write `04.B=02:0f` against old contents
`0xa5` commits exactly the single byte write of `0xa2` at address 4. -/
theorem claim_C8_witness :
    (exec_op false ⟨0, 0, 4, 1, [⟨2, 15⟩]⟩ devA5).1.filter (fun e => e.isWrite) =
      write_events devA5 1 (0 + 4) [⟨2, 15⟩] :=
  (claim_C8 (fun _ => []) [] ⟨0, 0, 4, 1, [⟨2, 15⟩]⟩ devA5 0).2.2 (by decide)
    (by decide)

theorem exec_value_addrOf {demo : Bool} {dev : Dev} {w addr : Nat}
    {vm : ValueMask} {e : Event} (he : e ∈ exec_value demo dev w addr vm) :
    e.addrOf = addr := by
  unfold exec_value at he
  rcases List.mem_append.mp he with h | h <;>
  · split at h
    · exact absurd h (List.not_mem_nil e)
    · simp only [List.mem_singleton] at h
      subst h
      rfl

theorem exec_values_err (demo : Bool) (dev : Dev) (w : Nat) :
    ∀ (addr : Nat) (vms : List ValueMask),
      ((exec_values demo dev w addr vms).2 = some Err.outOfRange ↔
        vms ≠ [] ∧ addr + w * vms.length > 0x1000) := by
  intro addr vms
  induction vms generalizing addr with
  | nil => simp [exec_values]
  | cons vm rest ih =>
    rw [exec_values]
    by_cases h : addr + w > 0x1000
    · rw [if_pos h]
      simp only [List.length_cons, Nat.mul_succ]
      constructor
      · intro _
        exact ⟨by simp, by omega⟩
      · intro _
        trivial
    · rw [if_neg h]
      dsimp only
      rw [ih (addr + w)]
      simp only [List.length_cons, Nat.mul_succ]
      constructor
      · rintro ⟨-, hgt⟩
        exact ⟨by simp, by omega⟩
      · rintro ⟨-, hgt⟩
        refine ⟨?_, by omega⟩
        rcases rest with - | ⟨r, rs⟩
        · simp only [List.length_nil, Nat.mul_zero] at hgt
          omega
        · simp

theorem exec_values_addr (demo : Bool) (dev : Dev) (w : Nat) :
    ∀ (addr : Nat) (vms : List ValueMask) (e : Event),
      e ∈ (exec_values demo dev w addr vms).1 →
      ∃ i, i < vms.length ∧ e.addrOf = addr + i * w ∧
        addr + i * w + w ≤ 0x1000 := by
  intro addr vms
  induction vms generalizing addr with
  | nil => intro e he; exact absurd he (List.not_mem_nil e)
  | cons vm rest ih =>
    intro e he
    rw [exec_values] at he
    by_cases h : addr + w > 0x1000
    · rw [if_pos h] at he
      exact absurd he (List.not_mem_nil e)
    · rw [if_neg h] at he
      dsimp only at he
      rcases List.mem_append.mp he with h1 | h1
      · refine ⟨0, by simp, ?_, ?_⟩
        · rw [exec_value_addrOf h1]
          simp
        · simp only [Nat.zero_mul]
          omega
      · rcases ih (addr + w) e h1 with ⟨i, hi, haddr, hbound⟩
        refine ⟨i + 1, by simpa using Nat.succ_lt_succ hi, ?_, ?_⟩
        · rw [haddr, Nat.succ_mul]
          omega
        · rw [Nat.succ_mul]
          omega

theorem exec_op_err (demo : Bool) (op : Op) (dev : Dev) (base : Nat)
    (h : cap_lookup dev op.cap = some base) :
    ((exec_op demo op dev).2 = some Err.outOfRange ↔
      base + op.addr + op.width * max 1 op.values.length > 0x1000) := by
  rw [exec_op, h]
  dsimp only
  by_cases hv : op.values.length ≠ 0
  · rw [if_pos hv]
    rw [exec_values_err]
    have hmax : max 1 op.values.length = op.values.length :=
      Nat.max_eq_right (by omega)
    rw [hmax]
    constructor
    · rintro ⟨-, hgt⟩
      exact hgt
    · intro hgt
      refine ⟨fun hnil => hv ?_, hgt⟩
      rw [hnil]
      rfl
  · rw [if_neg hv]
    have h0 : op.values.length = 0 := by omega
    rw [h0]
    by_cases hr : base + op.addr + op.width > 0x1000
    · rw [if_pos hr]
      simpa using hr
    · rw [if_neg hr]
      simpa using hr

/-- Claim C5: at execution time, an operation naming a capability calls the
external locator with the device, the capability kind (normal below
`0x20000`, extended above) and the decoded id; a not-found locator answer is
the fatal `CapabilityNotFound` carrying the requested capability, and a
fatal first component makes `seqE` drop everything that follows (the whole
run aborts).  Otherwise the effective address is the capability base (0 when
no capability) plus the stored offset, the fatal `OutOfRange` occurs exactly
when some access would cross `0x1000`, and every performed access sits at a
running address `base + offset + i·width` that passes the
`addr + width > 0x1000` check. -/
theorem claim_C5 (demo : Bool) (op : Op) (dev : Dev) :
    (op.cap ≠ 0 → op.cap < 0x20000 →
      cap_lookup dev op.cap = dev.findCap false (op.cap - 0x10000)) ∧
    (op.cap ≠ 0 → 0x20000 ≤ op.cap →
      cap_lookup dev op.cap = dev.findCap true (op.cap - 0x20000)) ∧
    (cap_lookup dev op.cap = none →
      exec_op demo op dev = ([], some (Err.capNotFound op.cap))) ∧
    (∀ base, cap_lookup dev op.cap = some base →
      (((exec_op demo op dev).2 = some Err.outOfRange) ↔
        base + op.addr + op.width * max 1 op.values.length > 0x1000) ∧
      ∀ e ∈ (exec_op demo op dev).1,
        ∃ i, i < max 1 op.values.length ∧
          e.addrOf = base + op.addr + i * op.width ∧
          base + op.addr + i * op.width + op.width ≤ 0x1000) ∧
    (∀ (tr : List Event) (er : Err) (b : List Event × Option Err),
      seqE (tr, some er) b = (tr, some er)) := by
  refine ⟨?_, ?_, ?_, ?_, ?_⟩
  · intro h1 h2
    unfold cap_lookup
    rw [if_pos h1, if_pos h2]
  · intro h1 h2
    unfold cap_lookup
    rw [if_pos h1, if_neg (not_lt.mpr h2)]
  · intro h
    rw [exec_op, h]
  · intro base hb
    refine ⟨exec_op_err demo op dev base hb, ?_⟩
    intro e he
    rw [exec_op, hb] at he
    dsimp only at he
    by_cases hv : op.values.length ≠ 0
    · rw [if_pos hv] at he
      rcases exec_values_addr demo dev op.width (base + op.addr) op.values e he
        with ⟨i, hi, haddr, hbd⟩
      exact ⟨i, lt_of_lt_of_le hi (le_max_right 1 _), haddr, hbd⟩
    · rw [if_neg hv] at he
      by_cases hr : base + op.addr + op.width > 0x1000
      · rw [if_pos hr] at he
        exact absurd he (List.not_mem_nil e)
      · rw [if_neg hr] at he
        simp only [List.mem_singleton] at he
        subst he
        refine ⟨0, by simp, by simp [Event.addrOf], ?_⟩
        simp only [Nat.zero_mul]
        omega
  · intro tr er b
    rfl

/-- Witness for claim C5: a read of `CAP_PM` (capability `0x10001`) on a
device without that capability dies with `CapabilityNotFound 0x10001`. -/
theorem claim_C5_witness :
    exec_op false ⟨0, 0x10001, 0, 2, []⟩ devA5 =
      ([], some (Err.capNotFound 0x10001)) :=
  (claim_C5 false ⟨0, 0x10001, 0, 2, []⟩ devA5).2.2.1 (by decide)

/-! ## Parser helper lemmas -/

theorem parse_width_ok {wt : Option (List Char)} {w : Nat}
    (h : parse_width wt = .ok w) : w = 0 ∨ w = 1 ∨ w = 2 ∨ w = 4 := by
  rcases wt with - | ws
  · simp only [parse_width] at h
    cases h
    exact Or.inl rfl
  · rcases ws with - | ⟨ch, t⟩
    · simp only [parse_width] at h
      exact Except.noConfusion h
    · rcases t with - | ⟨ch2, t2⟩
      · simp only [parse_width] at h
        split at h
        · cases h; right; left; rfl
        · split at h
          · cases h; right; right; left; rfl
          · split at h
            · cases h; right; right; right; rfl
            · exact Except.noConfusion h
      · simp only [parse_width] at h
        exact Except.noConfusion h

theorem table_widths :
    (pci_reg_names.all fun r =>
      decide (r.width = 0 ∨ r.width = 1 ∨ r.width = 2 ∨ r.width = 4)) = true := by
  decide

theorem parse_register_width {w0 : Nat} {base : List Char} {cap a w : Nat}
    (h : parse_register w0 base = .ok (cap, a, w)) :
    w = w0 ∨ ∃ r, r ∈ pci_reg_names ∧ w = r.width := by
  unfold parse_register at h
  cases hx : parse_x32 base
  case full v =>
    rw [hx] at h
    cases h
    exact Or.inl rfl
  all_goals
    rw [hx] at h
    dsimp only at h
    cases hr : parse_reg_name base
    case some r =>
      rw [hr] at h
      dsimp only at h
      cases h
      split
      · exact Or.inr ⟨r, List.mem_of_find?_eq_some hr, rfl⟩
      · exact Or.inl rfl
    case none =>
      rw [hr] at h
      dsimp only at h
      split at h
      · split at h <;> try exact Except.noConfusion h
        split at h
        · cases h; exact Or.inl rfl
        · exact Except.noConfusion h
      · split at h
        · split at h <;> try exact Except.noConfusion h
          split at h
          · cases h; exact Or.inl rfl
          · exact Except.noConfusion h
        · exact Except.noConfusion h

theorem parse_values_length {lim : Nat} :
    ∀ {n : Nat} {v : List Char} {vals : List ValueMask},
      parse_values lim n v = .ok vals → vals.length = n := by
  intro n
  induction n with
  | zero =>
    intro v vals h
    simp only [parse_values] at h
    cases h
    rfl
  | succ k ih =>
    intro v vals h
    rw [parse_values] at h
    rcases hsp : splitFirst ',' v with ⟨seg, e⟩
    rw [hsp] at h
    dsimp only at h
    cases hone : parse_one_value lim seg with
    | error er => rw [hone] at h; cases h
    | ok vm =>
      rw [hone] at h
      dsimp only at h
      cases hrest : parse_values lim k (e.getD []) with
      | error er => rw [hrest] at h; cases h
      | ok rest =>
        rw [hrest] at h
        cases h
        simp only [List.length_cons]
        rw [ih hrest]

theorem parse_op_ok {vid : Nat} {c : List Char} {op : Op}
    (h : parse_op vid c = .ok op) :
    (op.width = 1 ∨ op.width = 2 ∨ op.width = 4) ∧
    check_range op.addr op.width op.values.length = .ok () := by
  unfold parse_op at h
  rcases hs1 : splitFirst '=' c with ⟨b1, valueTail⟩
  rw [hs1] at h
  dsimp only at h
  rcases hs2 : splitFirst '.' b1 with ⟨b2, widthTail⟩
  rw [hs2] at h
  dsimp only at h
  rcases hs3 : splitFirst '+' b2 with ⟨base, offsetTail⟩
  rw [hs3] at h
  dsimp only at h
  cases hn : (match valueTail with
      | none => Except.ok 0
      | some v =>
        if v = [] then Except.error PErr.missingValue
        else Except.ok (1 + v.count ',')) with
  | error e => rw [hn] at h; cases h
  | ok n =>
  rw [hn] at h
  dsimp only at h
  cases hw0 : parse_width widthTail with
  | error e => rw [hw0] at h; cases h
  | ok w0 =>
  rw [hw0] at h
  dsimp only at h
  cases hreg : parse_register w0 base with
  | error e => rw [hreg] at h; cases h
  | ok t =>
  rcases t with ⟨cap, addr0, w1⟩
  rw [hreg] at h
  dsimp only at h
  by_cases hz : w1 = 0
  · rw [if_pos hz] at h; cases h
  rw [if_neg hz] at h
  cases hoff : apply_offset addr0 offsetTail with
  | error e => rw [hoff] at h; cases h
  | ok addr =>
  rw [hoff] at h
  dsimp only at h
  cases hchk : check_range addr w1 n with
  | error e => rw [hchk] at h; cases h
  | ok u =>
  rw [hchk] at h
  dsimp only at h
  have hw1 : w1 = 1 ∨ w1 = 2 ∨ w1 = 4 := by
    rcases parse_register_width hreg with h1 | ⟨r, hr, h1⟩
    · rcases parse_width_ok hw0 with h2 | h2 | h2 | h2 <;> omega
    · have := List.all_eq_true.mp table_widths r hr
      rw [h1]
      simp only [decide_eq_true_eq] at this
      omega
  cases valueTail with
  | none =>
    cases h
    have hn0 : n = 0 := by
      cases hn
      rfl
    refine ⟨hw1, ?_⟩
    dsimp only
    rw [List.length_nil, ← hn0]
    exact hchk
  | some v =>
    dsimp only at h
    cases hvals : parse_values (maxValue w1) n v with
    | error e => rw [hvals] at h; cases h
    | ok vals =>
      rw [hvals] at h
      cases h
      refine ⟨hw1, ?_⟩
      dsimp only
      rw [parse_values_length hvals]
      exact hchk

theorem if_zero_max (n : Nat) : (if n = 0 then 1 else n) = max 1 n := by
  rcases n with - | k
  · simp
  · rw [if_neg (by omega)]
    omega

theorem land_width_mod (addr : Nat) {w : Nat} (hw : w = 1 ∨ w = 2 ∨ w = 4) :
    addr &&& (w - 1) = addr % w := by
  rcases hw with rfl | rfl | rfl
  · simp [Nat.mod_one]
  · exact Nat.and_one_is_mod addr
  · simpa using land_two_pow_sub_one addr 2

theorem check_range_cases (addr w n : Nat) (hw : w = 1 ∨ w = 2 ∨ w = 4) :
    (check_range addr w n = .error PErr.outOfRange ↔
      addr ≥ 0x1000 ∨ addr + w * max 1 n > 0x1000) ∧
    (check_range addr w n = .error PErr.unaligned ↔
      addr + w * max 1 n ≤ 0x1000 ∧ addr % w ≠ 0) ∧
    (check_range addr w n = .ok () ↔
      addr + w * max 1 n ≤ 0x1000 ∧ addr % w = 0) := by
  have hge : 1 ≤ w * max 1 n := by
    have h2 : 1 ≤ max 1 n := le_max_left 1 n
    have := Nat.mul_le_mul (show 1 ≤ w by omega) h2
    omega
  unfold check_range
  rw [if_zero_max n, land_width_mod addr hw]
  by_cases h1 : addr ≥ 0x1000 ∨ addr + w * max 1 n > 0x1000
  · rw [if_pos h1]
    refine ⟨by simp [h1], ?_, ?_⟩
    · constructor
      · intro hcon
        simp at hcon
      · rintro ⟨hle, -⟩
        exact absurd hle (by omega)
    · constructor
      · intro hcon
        simp at hcon
      · rintro ⟨hle, -⟩
        exact absurd hle (by omega)
  · rw [if_neg h1]
    by_cases h2 : addr % w ≠ 0
    · rw [if_pos h2]
      refine ⟨⟨fun hcon => by simp at hcon, fun hor => absurd hor h1⟩,
        ⟨fun _ => ⟨by omega, h2⟩, fun _ => rfl⟩,
        ⟨fun hcon => by simp at hcon, fun h3 => absurd h3.2 h2⟩⟩
    · rw [if_neg h2]
      refine ⟨⟨fun hcon => by simp at hcon, fun hor => absurd hor h1⟩,
        ⟨fun hcon => by simp at hcon, fun h3 => absurd h3.2 h2⟩,
        ⟨fun _ => ⟨by omega, by omega⟩, fun _ => rfl⟩⟩

/-- Counterexample to claim C4 as stated: at offset `0x1001`, width 2, no
values, the offset is unaligned (`0x1001 % 2 ≠ 0`) yet the check does not
fail with the unaligned error — the range check fires first. -/
theorem claim_C4_cex :
    check_range 0x1001 2 0 = .error PErr.outOfRange ∧ 0x1001 % 2 ≠ 0 ∧
    ¬check_range 0x1001 2 0 = .error PErr.unaligned := by decide

/-- Claim C4 (amended): the static check of `parse_op` fails with the
out-of-range error iff `offset ≥ 0x1000` or
`offset + width · max 1 n > 0x1000`; it fails with the unaligned error iff
the range check passes and `offset mod width ≠ 0` (the range check fires
first); it accepts exactly when both hold, and every accepted operation
satisfies the range bound and the alignment.  The check is a pure function
of the parsed spec — no device is consulted. -/
theorem claim_C4 (addr w n : Nat) (hw : w = 1 ∨ w = 2 ∨ w = 4) :
    (check_range addr w n = .error PErr.outOfRange ↔
      addr ≥ 0x1000 ∨ addr + w * max 1 n > 0x1000) ∧
    (check_range addr w n = .error PErr.unaligned ↔
      addr + w * max 1 n ≤ 0x1000 ∧ addr % w ≠ 0) ∧
    (check_range addr w n = .ok () ↔
      addr + w * max 1 n ≤ 0x1000 ∧ addr % w = 0) ∧
    (∀ (vid : Nat) (c : List Char) (op : Op), parse_op vid c = .ok op →
      op.addr + op.width * max 1 op.values.length ≤ 0x1000 ∧
      op.addr % op.width = 0) := by
  refine ⟨(check_range_cases addr w n hw).1, (check_range_cases addr w n hw).2.1,
    (check_range_cases addr w n hw).2.2, ?_⟩
  intro vid c op h
  obtain ⟨hw1, hchk⟩ := parse_op_ok h
  exact ((check_range_cases op.addr op.width op.values.length hw1).2.2).mp hchk

/-- Witness for claim C4 (amended): at offset 4, width 2, one value, the
check accepts, and the acceptance criterion evaluates as stated. -/
theorem claim_C4_witness :
    check_range 4 2 1 = .ok () ↔ 4 + 2 * max 1 1 ≤ 0x1000 ∧ 4 % 2 = 0 :=
  (claim_C4 4 2 1 (by decide)).2.2.1

/-- Claim C9: every operation accepted by `parse_op` has width 1, 2 or 4, so
the width-indexed tables `formats`, `mask_formats` and `max_values` are only
consulted at their valid entries (never at indices 0 or 3). -/
theorem claim_C9 (vid : Nat) (c : List Char) (op : Op)
    (h : parse_op vid c = .ok op) :
    (op.width = 1 ∨ op.width = 2 ∨ op.width = 4) ∧
    (formats.getD op.width none).isSome = true ∧
    (mask_formats.getD op.width none).isSome = true ∧
    maxValue op.width ≠ 0 := by
  refine ⟨(parse_op_ok h).1, ?_, ?_, ?_⟩ <;>
    rcases (parse_op_ok h).1 with h1 | h1 | h1 <;> rw [h1] <;> decide

/-- Witness for claim C9: `40.B` parses to a width-1 operation at offset
`0x40` and all width-indexed tables are defined at 1. -/
theorem claim_C9_witness :
    ((⟨0, 0, 0x40, 1, []⟩ : Op).width = 1 ∨ (⟨0, 0, 0x40, 1, []⟩ : Op).width = 2 ∨
      (⟨0, 0, 0x40, 1, []⟩ : Op).width = 4) ∧
    (formats.getD (⟨0, 0, 0x40, 1, []⟩ : Op).width none).isSome = true ∧
    (mask_formats.getD (⟨0, 0, 0x40, 1, []⟩ : Op).width none).isSome = true ∧
    maxValue (⟨0, 0, 0x40, 1, []⟩ : Op).width ≠ 0 :=
  claim_C9 0 ['4', '0', '.', 'B'] ⟨0, 0, 0x40, 1, []⟩ (by decide)

/-- Claim C6: a value or mask literal at width maximum `lim` passes the
range check iff its magnitude is at most `lim` or at least `~0UL - lim` (the
two's-complement window); a literal outside both windows fails the parse as
out of range, naming the offending literal, while an in-window literal is
stored (pre-masked by its mask when one is given, with default mask `~0U`
otherwise). -/
theorem claim_C6 (ll lim m : Nat) (seg rest : List Char) :
    (value_out_of_range ll lim = false ↔ ll ≤ lim ∨ ULONG_MAX - lim ≤ ll) ∧
    (parse_x32 seg = .full ll →
      (value_out_of_range ll lim = true →
        parse_one_value lim seg = .error (.valueOutOfRange seg)) ∧
      (value_out_of_range ll lim = false →
        parse_one_value lim seg = .ok ⟨ll, 0xffffffff⟩)) ∧
    (parse_x32 seg = .stop ll rest → rest.headD ' ' = ':' →
      value_out_of_range ll lim = false →
      parse_x32 (rest.drop 1) = .full m →
      (value_out_of_range m lim = true →
        parse_one_value lim seg = .error (.maskOutOfRange (rest.drop 1))) ∧
      (value_out_of_range m lim = false →
        parse_one_value lim seg = .ok ⟨ll &&& m, m⟩)) := by
  refine ⟨?_, ?_, ?_⟩
  · simp only [value_out_of_range, Bool.and_eq_false_iff,
      decide_eq_false_iff_not, not_lt, ULONG_MAX]
  · intro hfull
    constructor
    · intro hv
      unfold parse_one_value
      rw [hfull]
      dsimp only
      rw [if_pos hv]
    · intro hv
      unfold parse_one_value
      rw [hfull]
      dsimp only
      rw [if_neg (by simp [hv])]
  · intro hstop hhead hvok hmx
    constructor
    · intro hm
      unfold parse_one_value
      rw [hstop]
      dsimp only
      rw [if_neg (by simpa using hhead), if_neg (by simp [hvok]), hmx]
      dsimp only
      rw [if_pos hm]
    · intro hm
      unfold parse_one_value
      rw [hstop]
      dsimp only
      rw [if_neg (by simpa using hhead), if_neg (by simp [hvok]), hmx]
      dsimp only
      rw [if_neg (by simp [hm])]

/-- Witness for claim C6: at width 1 (`lim = 0xff`) the literal `0x1234` is
outside both windows and fails naming itself; `0xff` is accepted with the
default mask. -/
theorem claim_C6_witness :
    parse_one_value 0xff ['1', '2', '3', '4'] =
      .error (.valueOutOfRange ['1', '2', '3', '4']) ∧
    parse_one_value 0xff ['f', 'f'] = .ok ⟨0xff, 0xffffffff⟩ :=
  ⟨((claim_C6 0x1234 0xff 0 ['1', '2', '3', '4'] []).2.1 (by decide)).1 (by decide),
   ((claim_C6 0xff 0xff 0 ['f', 'f'] []).2.1 (by decide)).2 (by decide)⟩

/-- Claim C3: base-token resolution order, first match wins — a fully-parsed
hex number; else a register-name-table match (adopting the table's width
only when it is nonzero and no width suffix was given); else `CAP` plus a
fully-consumed hex number below `0x100`; else `ECAP` plus a fully-consumed
hex number below `0x1000`; else the unknown-register failure naming the
offending token. -/
theorem claim_C3 (w0 : Nat) (base : List Char) :
    (∀ v, parse_x32 base = .full v →
      parse_register w0 base = .ok (0, v, w0)) ∧
    ((¬∃ v, parse_x32 base = .full v) → ∀ r, parse_reg_name base = some r →
      parse_register w0 base =
        .ok (r.cap, r.offset, if r.width ≠ 0 ∧ w0 = 0 then r.width else w0)) ∧
    ((¬∃ v, parse_x32 base = .full v) → parse_reg_name base = none →
      startsWithCI ['C', 'A', 'P'] base = true →
      ∀ v, parse_x32 (base.drop 3) = .full v → v < 0x100 →
        parse_register w0 base = .ok (0x10000 + v, 0, w0)) ∧
    ((¬∃ v, parse_x32 base = .full v) → parse_reg_name base = none →
      startsWithCI ['C', 'A', 'P'] base = false →
      startsWithCI ['E', 'C', 'A', 'P'] base = true →
      ∀ v, parse_x32 (base.drop 4) = .full v → v < 0x1000 →
        parse_register w0 base = .ok (0x20000 + v, 0, w0)) ∧
    ((¬∃ v, parse_x32 base = .full v) → parse_reg_name base = none →
      (startsWithCI ['C', 'A', 'P'] base = true →
        ¬∃ v, parse_x32 (base.drop 3) = .full v ∧ v < 0x100) →
      (startsWithCI ['C', 'A', 'P'] base = false →
        startsWithCI ['E', 'C', 'A', 'P'] base = true →
        ¬∃ v, parse_x32 (base.drop 4) = .full v ∧ v < 0x1000) →
      parse_register w0 base = .error (.unknownRegister base)) := by
  refine ⟨?_, ?_, ?_, ?_, ?_⟩
  · intro v hv
    unfold parse_register
    rw [hv]
  · intro hnf r hr
    unfold parse_register
    cases hx : parse_x32 base
    case full v => exact absurd ⟨v, hx⟩ hnf
    all_goals
      dsimp only
      rw [hr]
  · intro hnf hnr hcap v hv hlt
    unfold parse_register
    cases hx : parse_x32 base
    case full v2 => exact absurd ⟨v2, hx⟩ hnf
    all_goals
      dsimp only
      rw [hnr]
      dsimp only
      simp [hcap, hv, hlt]
  · intro hnf hnr hcap hecap v hv hlt
    unfold parse_register
    cases hx : parse_x32 base
    case full v2 => exact absurd ⟨v2, hx⟩ hnf
    all_goals
      dsimp only
      rw [hnr]
      dsimp only
      simp [hcap, hecap, hv, hlt]
  · intro hnf hnr hno3 hno4
    unfold parse_register
    cases hx : parse_x32 base
    case full v => exact absurd ⟨v, hx⟩ hnf
    all_goals
      dsimp only
      rw [hnr]
      dsimp only
      cases hc : startsWithCI ['C', 'A', 'P'] base
      · cases he : startsWithCI ['E', 'C', 'A', 'P'] base
        · simp [hc, he]
        · cases hy : parse_x32 (base.drop 4)
          case full v =>
            have hge : ¬v < 0x1000 := fun hlt => (hno4 hc he) ⟨v, hy, hlt⟩
            simp [hc, he, hy, hge]
          all_goals simp [hc, he, hy]
      · cases hy : parse_x32 (base.drop 3)
        case full v =>
          have hge : ¬v < 0x100 := fun hlt => (hno3 hc) ⟨v, hy, hlt⟩
          simp [hc, hy, hge]
        all_goals simp [hc, hy]

/-- Witness for claim C3: the pure hex token `40` resolves to no capability,
offset `0x40`, leaving the suffix width in force; the table name
`vendor_id` (case-insensitive) resolves to the table's offset 0 and adopts
the table's width 2 when no suffix width was given. -/
theorem not_full_of_stop {c : List Char} {v0 : Nat} {r : List Char}
    (h : parse_x32 c = .stop v0 r) : ¬∃ v, parse_x32 c = .full v := by
  rintro ⟨v, hv⟩
  rw [h] at hv
  exact X32.noConfusion hv

theorem claim_C3_witness :
    parse_register 0 ['4', '0'] = .ok (0, 0x40, 0) ∧
    parse_register 0 ['v', 'e', 'n', 'd', 'o', 'r', '_', 'i', 'd'] =
      .ok (0, 0, if (2 : Nat) ≠ 0 ∧ (0 : Nat) = 0 then 2 else 0) :=
  ⟨(claim_C3 0 ['4', '0']).1 0x40 (by decide),
   (claim_C3 0 ['v', 'e', 'n', 'd', 'o', 'r', '_', 'i', 'd']).2.1
      (@not_full_of_stop ['v', 'e', 'n', 'd', 'o', 'r', '_', 'i', 'd'] 0
        ['v', 'e', 'n', 'd', 'o', 'r', '_', 'i', 'd'] (by decide))
      ⟨0, 0, 2, "VENDOR_ID"⟩ (by decide)⟩

/-- Predicate picking out the device-vector materialization events. -/
def is_select (e : PEvent) : Bool :=
  match e with
  | .selectDevs _ => true
  | _ => false

/-- Counterexample to claim C7 as stated: on the token list
`[filter 0, filter 1]` the second filter token neither materializes a new
filter object (only one `filterInit` is emitted — the second spec is merged
into the same filter) nor builds any device vector (no `selectDevs` event at
all). -/
theorem claim_C7_cex :
    (run_toks (fun _ _ => true) [7] false [.filter 0, .filter 1]).events =
      [.filterInit, .filterAdd 0, .filterAdd 1] ∧
    (run_toks (fun _ _ => true) [7] false [.filter 0, .filter 1]).events.filter
      is_select = [] ∧
    (run_toks (fun _ _ => true) [7] false [.filter 0, .filter 1]).events.count
      PEvent.filterInit = 1 := by decide

theorem select_devices_filter (pred : List Nat → Nat → Bool) (filt : List Nat) :
    ∀ devs : List Nat, select_devices pred filt devs = devs.filter (pred filt) := by
  intro devs
  induction devs with
  | nil => rfl
  | cons z rest ih =>
    rw [select_devices, List.filter_cons]
    by_cases h : pred filt z
    · rw [if_pos h, if_pos h, ih]
    · rw [if_neg h, if_neg h, ih]

/-- Claim C7 (amended): a filter token always re-enters `GOT_FILTER`, but a
fresh filter object is initialized only when the parser is not already in
`GOT_FILTER` (consecutive filter tokens refine one filter); no device vector
is built by the filter token itself.  The vector is materialized by the
first operation token that follows, by scanning the full device list once
and keeping exactly the matching devices in master-list order. -/
theorem claim_C7 (pred : List Nat → Nat → Bool) (devs : List Nat)
    (force : Bool) (s : PST) (f : Nat) (c : List Char)
    (hdead : s.dead = false) :
    (s.state ≠ .gotFilter →
      (pstep pred devs force s (.filter f)).events =
        s.events ++ [.filterInit, .filterAdd f] ∧
      (pstep pred devs force s (.filter f)).filt = [f] ∧
      (pstep pred devs force s (.filter f)).state = .gotFilter) ∧
    (s.state = .gotFilter →
      (pstep pred devs force s (.filter f)).events =
        s.events ++ [.filterAdd f] ∧
      (pstep pred devs force s (.filter f)).filt = s.filt ++ [f] ∧
      (pstep pred devs force s (.filter f)).state = .gotFilter) ∧
    ((pstep pred devs force s (.filter f)).events.filter is_select =
      s.events.filter is_select) ∧
    (s.state = .gotFilter →
      ∃ tail, (pstep pred devs force s (.op c)).events =
        s.events ++ PEvent.selectDevs (select_devices pred s.filt devs) :: tail) ∧
    (select_devices pred s.filt devs = devs.filter (pred s.filt)) := by
  refine ⟨?_, ?_, ?_, ?_, select_devices_filter pred s.filt devs⟩
  · intro hst
    unfold pstep
    rw [if_neg (by simp [hdead])]
    dsimp only
    rw [if_pos hst]
    exact ⟨rfl, rfl, rfl⟩
  · intro hst
    unfold pstep
    rw [if_neg (by simp [hdead])]
    dsimp only
    rw [if_neg (by simp [hst])]
    exact ⟨rfl, rfl, rfl⟩
  · unfold pstep
    rw [if_neg (by simp [hdead])]
    dsimp only
    by_cases hst : s.state ≠ .gotFilter
    · rw [if_pos hst]
      dsimp only
      rw [List.filter_append]
      simp [is_select]
    · rw [if_neg hst]
      dsimp only
      rw [List.filter_append]
      simp [is_select]
  · intro hst
    unfold pstep
    rw [if_neg (by simp [hdead])]
    dsimp only
    rw [if_neg (by simp [hst])]
    cases hp : parse_op s.nextId c with
    | error e =>
      refine ⟨(if select_devices pred s.filt devs = [] ∧ force = false then
          [PEvent.warnEmpty] else []) ++ [.parseFail e], ?_⟩
      simp [hst, hp]
    | ok o =>
      refine ⟨(if select_devices pred s.filt devs = [] ∧ force = false then
          [PEvent.warnEmpty] else []) ++ [.buildOp o], ?_⟩
      simp [hst, hp]

/-- Witness for claim C7 (amended): from the initial state, a filter token
emits exactly `filterInit` then `filterAdd`, resets the filter contents and
enters `GOT_FILTER`. -/
theorem claim_C7_witness :
    (pstep (fun _ _ => true) [7] false pstInit (.filter 5)).events =
      pstInit.events ++ [.filterInit, .filterAdd 5] ∧
    (pstep (fun _ _ => true) [7] false pstInit (.filter 5)).filt = [5] ∧
    (pstep (fun _ _ => true) [7] false pstInit (.filter 5)).state = .gotFilter :=
  (claim_C7 (fun _ _ => true) [7] false pstInit 5 [] rfl).1 (by decide)

theorem pstep_filter_eq (pred : List Nat → Nat → Bool) (devs : List Nat)
    (force : Bool) (s : PST) (f : Nat) (hdead : s.dead = false)
    (hst : s.state ≠ .gotFilter) :
    pstep pred devs force s (.filter f) =
      { s with state := .gotFilter, filt := [f],
               events := s.events ++ [.filterInit, .filterAdd f] } := by
  unfold pstep
  rw [if_neg (by simp [hdead])]
  dsimp only
  rw [if_pos hst]

theorem pstep_start (pred : List Nat → Nat → Bool) (devs : List Nat)
    (force : Bool) (s : PST) (t : Tok) :
    (pstep pred devs force s t).state ≠ PState.start ∨
      (pstep pred devs force s t).dead = true := by
  unfold pstep
  by_cases hd : s.dead = true
  · rw [if_pos hd]
    exact Or.inr hd
  · rw [if_neg hd]
    cases t with
    | filter f =>
      dsimp only
      split
      · exact Or.inl (fun h => PState.noConfusion h)
      · exact Or.inl (fun h => PState.noConfusion h)
    | op c =>
      dsimp only
      split
      · exact Or.inr rfl
      · split
        · exact Or.inr rfl
        · exact Or.inl (fun h => PState.noConfusion h)

theorem foldl_pstep_start (pred : List Nat → Nat → Bool) (devs : List Nat)
    (force : Bool) :
    ∀ (ts : List Tok) (s : PST), (s.state ≠ PState.start ∨ s.dead = true) →
      ((ts.foldl (pstep pred devs force) s).state ≠ PState.start ∨
        (ts.foldl (pstep pred devs force) s).dead = true) := by
  intro ts
  induction ts with
  | nil => intro s h; exact h
  | cons t rest ih =>
    intro s _
    rw [List.foldl_cons]
    exact ih _ (pstep_start pred devs force s t)

theorem run_toks_start (pred : List Nat → Nat → Bool) (devs : List Nat)
    (force : Bool) (ts : List Tok)
    (hs : (run_toks pred devs force ts).state = PState.start)
    (hd : (run_toks pred devs force ts).dead = false) : ts = [] := by
  cases ts with
  | nil => rfl
  | cons t rest =>
    unfold run_toks at hs hd
    rw [List.foldl_cons] at hs hd
    rcases foldl_pstep_start pred devs force rest (pstep pred devs force pstInit t)
      (pstep_start pred devs force pstInit t) with h | h
    · exact absurd hs h
    · rw [hd] at h
      exact Bool.noConfusion h

theorem pstep_noOp (pred : List Nat → Nat → Bool) (devs : List Nat)
    (force : Bool) (s : PST) (t : Tok)
    (h : PEvent.usageNoOp ∉ s.events) :
    PEvent.usageNoOp ∉ (pstep pred devs force s t).events := by
  unfold pstep
  by_cases hd : s.dead = true
  · rw [if_pos hd]
    exact h
  · rw [if_neg hd]
    cases t with
    | filter f =>
      dsimp only
      split <;>
      · intro hmem
        dsimp only at hmem
        rcases List.mem_append.mp hmem with hm | hm
        · exact h hm
        · simp at hm
    | op c =>
      dsimp only
      split
      · intro hmem
        dsimp only at hmem
        rcases List.mem_append.mp hmem with hm | hm
        · exact h hm
        · simp at hm
      · split
        all_goals
          intro hmem
          dsimp only at hmem
          simp only [List.mem_append] at hmem
          rcases hmem with ((hm | hm) | hm) | hm
          · exact h hm
          · split at hm <;> simp at hm
          · split at hm <;> simp at hm
          · simp at hm

theorem run_toks_noOp (pred : List Nat → Nat → Bool) (devs : List Nat)
    (force : Bool) : ∀ ts : List Tok,
      PEvent.usageNoOp ∉ (run_toks pred devs force ts).events := by
  have aux : ∀ (ts : List Tok) (s : PST), PEvent.usageNoOp ∉ s.events →
      PEvent.usageNoOp ∉ (ts.foldl (pstep pred devs force) s).events := by
    intro ts
    induction ts with
    | nil => intro s h; exact h
    | cons t rest ih =>
      intro s h
      rw [List.foldl_cons]
      exact ih _ (pstep_noOp pred devs force s t h)
  intro ts
  exact aux ts pstInit (by simp [pstInit])

/-- Claim C10: when the argument tail ends in `GOT_FILTER` after at least
one operation was built, parsing succeeds silently — the trailing filter
only re-initializes and fills the filter object, its device vector is never
materialized, and no error or warning is emitted; the end-of-input
`"No operation specified"` error occurs exactly when the token list is
empty (the parser never left `INIT`). -/
theorem claim_C10 (pred : List Nat → Nat → Bool) (devs : List Nat)
    (force : Bool) (ts : List Tok) (f : Nat) :
    ((run_toks pred devs force ts).dead = false →
      (run_toks pred devs force ts).state = .gotOp →
      (parse_ops pred devs force (ts ++ [.filter f])).events =
        (run_toks pred devs force ts).events ++ [.filterInit, .filterAdd f] ∧
      (parse_ops pred devs force (ts ++ [.filter f])).dead = false) ∧
    (PEvent.usageNoOp ∈ (parse_ops pred devs force ts).events ↔ ts = []) := by
  constructor
  · intro hdead hstate
    have hstep : run_toks pred devs force (ts ++ [.filter f]) =
        pstep pred devs force (run_toks pred devs force ts) (.filter f) := by
      unfold run_toks
      rw [List.foldl_append]
      rfl
    have hne : (run_toks pred devs force ts).state ≠ .gotFilter := by
      rw [hstate]
      exact fun h => PState.noConfusion h
    have hp := pstep_filter_eq pred devs force _ f hdead hne
    unfold parse_ops
    rw [hstep, hp]
    rw [if_neg (by simp)]
    exact ⟨rfl, hdead⟩
  · constructor
    · intro hmem
      by_contra hne
      unfold parse_ops at hmem
      by_cases hc : (run_toks pred devs force ts).dead = false ∧
          (run_toks pred devs force ts).state = .start
      · exact hne (run_toks_start pred devs force ts hc.2 hc.1)
      · rw [if_neg hc] at hmem
        exact run_toks_noOp pred devs force ts hmem
    · rintro rfl
      unfold parse_ops run_toks
      simp [pstInit]

/-- Witness for claim C10: after `-s <filter> 0.B` one operation is built;
a trailing filter token leaves parsing successful, adds only the
filter-init/filter-add events, and raises nothing. -/
theorem claim_C10_witness :
    (parse_ops (fun _ _ => true) [7] false
        ([.filter 0, .op ['0', '.', 'B']] ++ [.filter 1])).events =
      (run_toks (fun _ _ => true) [7] false
        [.filter 0, .op ['0', '.', 'B']]).events ++
        [.filterInit, .filterAdd 1] ∧
    (parse_ops (fun _ _ => true) [7] false
        ([.filter 0, .op ['0', '.', 'B']] ++ [.filter 1])).dead = false :=
  (claim_C10 (fun _ _ => true) [7] false [.filter 0, .op ['0', '.', 'B']] 1).1
    (by decide) (by decide)

end Setpci
